import Mathlib

/-!
Verification of the hypercontent content-synthesis pipeline
(jota-one/hypercontent).

Strings are modelled as `List Char` (`Str`), mirroring JavaScript string
operations (`includes`, `replaceAll`, `split`, regex scans) with explicit
executable definitions.  The CMS-side generator
(`src/cms/modules/generate-content/index.ts`) is embedded in namespace `GC`,
the base generator's placeholder resolver
(`src/base/modules/generate-content/index.ts`) in namespace `BaseGen`, and the
navigation reconstructor (`src/cms/composables/useHcNavigation.ts`) in
namespace `Nav`.
-/

/-- Strings are lists of characters. -/
abbrev Str := List Char

/-- Coerce a Lean string literal to the model's string type. -/
def str (s : String) : Str := s.data

/-- JavaScript `haystack.includes(needle)`: substring containment. -/
def strIncludes (hay needle : Str) : Bool :=
  match hay with
  | [] => needle.isEmpty
  | _ :: t => needle.isPrefixOf hay || strIncludes t needle

/-- One step of `replaceAll`, with fuel for termination.
JavaScript `s.replaceAll(pat, rep)` for a non-empty `pat`: scan left to
right, replace each non-overlapping occurrence, never rescanning the
replacement text.  (The code only ever calls it with non-empty patterns.) -/
def strReplaceAllAux (fuel : Nat) (s pat rep : Str) : Str :=
  match fuel, s with
  | 0, s => s
  | _, [] => []
  | fuel + 1, c :: t =>
      if pat ≠ [] ∧ pat.isPrefixOf s then
        rep ++ strReplaceAllAux fuel (s.drop pat.length) pat rep
      else
        c :: strReplaceAllAux fuel t pat rep

/-- JavaScript `s.replaceAll(pat, rep)` (non-empty `pat`). -/
def strReplaceAll (s pat rep : Str) : Str :=
  strReplaceAllAux s.length s pat rep

/-- JavaScript `s.replace(pat, rep)` with a string pattern: replace the
first occurrence only. -/
def strReplaceFirst (s pat rep : Str) : Str :=
  match s with
  | [] => []
  | c :: t =>
      if pat ≠ [] ∧ pat.isPrefixOf s then rep ++ s.drop pat.length
      else c :: strReplaceFirst t pat rep

/-- JavaScript `s.split(sep)` for a one-character separator. -/
def splitOnChar (sep : Char) (s : Str) : List Str :=
  match s with
  | [] => [[]]
  | c :: t =>
      let rest := splitOnChar sep t
      if c = sep then [] :: rest
      else
        match rest with
        | [] => [[c]]
        | h :: r => (c :: h) :: r

/-- Join a list of lines with newline separators (`Array.join('\n')`). -/
def joinLines (ls : List Str) : Str :=
  match ls with
  | [] => []
  | [l] => l
  | l :: t => l ++ '\n' :: joinLines t

/-- Regex `\w`: ASCII letters, digits, underscore. -/
def isWordChar (c : Char) : Bool :=
  (('a' ≤ c ∧ c ≤ 'z') ∨ ('A' ≤ c ∧ c ≤ 'Z') ∨ ('0' ≤ c ∧ c ≤ '9') ∨ c = '_')

/-- Characters accepted by `PATH_CHECK_PATTERN = /[/:.a-z0-9-_]+/gm`. -/
def isPathChar (c : Char) : Bool :=
  c = '/' ∨ c = ':' ∨ c = '.' ∨ ('a' ≤ c ∧ c ≤ 'z') ∨
    ('0' ≤ c ∧ c ≤ '9') ∨ c = '-' ∨ c = '_'

/-- First match of `PATH_CHECK_PATTERN` in a string: the first maximal run
of allowed path characters, or `none` when the string has no allowed
character at all (JavaScript `match` returning `null`). -/
def firstPathRun (s : Str) : Option Str :=
  match s with
  | [] => none
  | c :: t => if isPathChar c then some (s.takeWhile isPathChar) else firstPathRun t

/-- Decimal representation of a natural number. -/
def natStr (n : Nat) : Str := (Nat.repr n).data

/-! ## Navigation tree reconstructor (src/cms/composables/useHcNavigation.ts) -/

namespace Nav

/-- A page of the flat, path-sorted list consumed by `_loadNavigation`.
The source's `show` field is called `showMode` here because `show` is a
Lean keyword. -/
structure HcPage where
  id : Nat
  path : Str
  label : Str
  sort : Nat
  showMode : Str

/-- A navigation tree node (`NavigationItem`): the `children` property is
absent (`none`) until the first child is pushed. -/
inductive NavItem : Type where
  | mk (pageId : Nat) (path : Str) (label : Str) (sort : Nat) (showMode : Str)
      (children : Option (List NavItem)) : NavItem

def NavItem.pageId : NavItem → Nat
  | .mk i _ _ _ _ _ => i

def NavItem.children : NavItem → Option (List NavItem)
  | .mk _ _ _ _ _ c => c

def NavItem.withChildren : NavItem → Option (List NavItem) → NavItem
  | .mk i p l s sh _, c => .mk i p l s sh c

/-- The plain node built from a page at push/cursor time: `pageId`, `path`,
`label`, `sort`, `show`, and no `children` property. -/
def leafOf (page : HcPage) : NavItem :=
  .mk page.id page.path page.label page.sort page.showMode none

/-- `hasChild` (useHcNavigation.ts:57-60): the next path differs, is longer,
and `includes` (substring containment) the current path. -/
def hasChild (page next : HcPage) : Bool :=
  decide (next.path ≠ page.path) &&
    decide (page.path.length < next.path.length) &&
    strIncludes next.path page.path

/-- `isFirstLevel` (useHcNavigation.ts:62-67): `path.split('/').length === 3`. -/
def isFirstLevel (page : HcPage) : Bool :=
  (splitOnChar '/' page.path).length == 3

/-- The parent cursor: the page it points at and whether the cursor object is
aliased with an entry of the top-level array (`findIndex` found it) or is a
detached object (`findIndex` returned `-1`, so `_navigation[-1] = parent`
left the array unchanged). -/
structure Cursor where
  attached : Bool
  pid : Nat

structure NavState where
  nav : List NavItem
  parent : Option Cursor

/-- Append `child` to the children of the first entry whose `pageId` matches
(creating the `children` array on first use). -/
def navPushChild : List NavItem → Nat → NavItem → List NavItem
  | [], _, _ => []
  | item :: rest, pid, child =>
      if item.pageId = pid then
        item.withChildren (some ((item.children.getD []) ++ [child])) :: rest
      else item :: navPushChild rest pid child

/-- Replace the first entry whose `pageId` matches with `fresh`
(`_navigation[parentIndex] = parent`). -/
def navReplaceFirst : List NavItem → Nat → NavItem → List NavItem
  | [], _, _ => []
  | item :: rest, pid, fresh =>
      if item.pageId = pid then fresh :: rest
      else item :: navReplaceFirst rest pid fresh

def navHasId (nav : List NavItem) (pid : Nat) : Bool :=
  nav.any (fun item => item.pageId == pid)

/-- The top-level array after the push phase of one loop iteration: a
first-level page resets the cursor; with a cursor the page is pushed as a
child (lost if the cursor is detached), otherwise it is pushed top-level. -/
def navStepNav1 (page : HcPage) (st : NavState) : List NavItem :=
  match (if isFirstLevel page then none else st.parent) with
  | some c =>
      if c.attached then navPushChild st.nav c.pid (leafOf page) else st.nav
  | none => st.nav ++ [leafOf page]

/-- One iteration of the `_loadNavigation` loop body for `page` with
one-element lookahead `next?` (useHcNavigation.ts:74-118). -/
def navStep (page : HcPage) (next? : Option HcPage) (st : NavState) : NavState :=
  let parent0 := if isFirstLevel page then none else st.parent
  let nav1 := navStepNav1 page st
  match next? with
  | some nxt =>
      if hasChild page nxt then
        let att := navHasId nav1 page.id
        { nav := if att then navReplaceFirst nav1 page.id (leafOf page) else nav1
          parent := some { attached := att, pid := page.id } }
      else { nav := nav1, parent := parent0 }
  | none => { nav := nav1, parent := parent0 }

/-- The loop over `pageList` with one-element lookahead. -/
def navLoop : List HcPage → NavState → NavState
  | [], st => st
  | [p], st => navStep p none st
  | p :: q :: rest, st => navLoop (q :: rest) (navStep p (some q) st)

/-- `_loadNavigation`'s tree construction: the loop starts at index 1
(the root entry is excluded) over the flat page list. -/
def loadNavigation (pageList : List HcPage) : List NavItem :=
  (navLoop (pageList.drop 1) { nav := [], parent := none }).nav

/-- Follows the spec's words: the child's path is a strict, longer,
path-segment-prefixed extension of the candidate parent's path
(`parentPath ++ "/"` begins `childPath`).  For comparison with the code's
`hasChild`. -/
def specSegmentExtension (parentPath childPath : Str) : Bool :=
  (parentPath ++ ['/']).isPrefixOf childPath

end Nav

/-! ## Content generator (src/cms/modules/generate-content/index.ts) -/

namespace GC

/-- Left brace character (written via its code point). -/
def lbrace : Char := Char.ofNat 123

/-- Right brace character (written via its code point). -/
def rbrace : Char := Char.ofNat 125

/-- Join strings with a one-character separator (`Array.join`). -/
def joinWithChar (sep : Char) : List Str → Str
  | [] => []
  | [x] => x
  | x :: t => x ++ sep :: joinWithChar sep t

/-- Modelled from the spec: `pascalToKebab` lives in
`src/cms/common/helpers`, which is not under `src/`.  Spec 4.3: the
component name is derived "by converting its `type` from a capitalized-word
form to a hyphenated lowercase form (e.g. `SessionCard` → `session-card`)". -/
def pascalToKebabTail : Str → Str
  | [] => []
  | c :: t =>
      if c.isUpper then '-' :: c.toLower :: pascalToKebabTail t
      else c :: pascalToKebabTail t

/-- Modelled from the spec (see `pascalToKebabTail`): the leading capital is
lowercased without a hyphen. -/
def pascalToKebab : Str → Str
  | [] => []
  | c :: t => c.toLower :: pascalToKebabTail t

/-- A block property value: JavaScript scalars, plus objects/arrays
represented by their `JSON.stringify` form. -/
inductive PropVal : Type where
  | pstr (s : Str)
  | pbool (b : Bool)
  | pint (n : Int)
  | pobj (json : Str)

/-- Would JavaScript `parseInt(s)` return a non-NaN value: after optional
spaces and an optional sign, the string starts with a digit. -/
def parseIntOk (s : Str) : Bool :=
  let s1 := s.dropWhile (fun c => c = ' ')
  let s2 := match s1 with
    | '+' :: t => t
    | '-' :: t => t
    | t => t
  match s2 with
  | c :: _ => c.isDigit
  | [] => false

/-- `isBooleanOrNumber` (generate-content/index.ts:114-117). -/
def isBooleanOrNumber : PropVal → Bool
  | .pobj _ => false
  | .pbool _ => true
  | .pint _ => true
  | .pstr s =>
      let low := s.map Char.toLower
      low == str "true" || low == str "false" || parseIntOk s

/-- The string interpolation `${value}` of a property value. -/
def PropVal.display : PropVal → Str
  | .pstr s => s
  | .pbool b => if b then str "true" else str "false"
  | .pint n => (toString n).data
  | .pobj j => j

/-- Is the value an object (including array)? -/
def PropVal.isObj : PropVal → Bool
  | .pobj _ => true
  | _ => false

/-- `processBlockProps` (generate-content/index.ts:119-147). -/
def processBlockProps (props : List (Str × PropVal)) : Str :=
  let comps := props.map fun kv =>
    (if kv.2.isObj then [':'] else []) ++
      (if isBooleanOrNumber kv.2 then ':' :: kv.1 ++ '=' :: kv.2.display
       else if kv.2.isObj then kv.1 ++ '=' :: '\'' :: kv.2.display ++ ['\'']
       else kv.1 ++ '=' :: '"' :: kv.2.display ++ ['"'])
  match comps with
  | [] => []
  | _ => lbrace :: joinWithChar ' ' comps ++ [rbrace]

/-- A CMS content block (`HcPageBlock`): optional `type`, optional raw
`text`, a `props` mapping, and children (an absent or empty `children`
array are both modelled as `[]`, matching `isInlineComponent`). -/
inductive Block : Type where
  | mk (typeName : Option Str) (text : Option Str) (props : List (Str × PropVal))
      (children : List Block) : Block

def Block.children : Block → List Block
  | .mk _ _ _ c => c

def Block.typeName : Block → Option Str
  | .mk t _ _ _ => t

/-- `indent` (generate-content/index.ts:110-112):
`''.padStart(depth, '  ')` pads the empty string to length `depth` with
spaces, i.e. one space per depth level. -/
def indent (depth : Nat) : Str := List.replicate depth ' '

/- `processBlock` and its `flatMap` over children
(generate-content/index.ts:149-170).  The behaviour of the missing
`pascalToKebab` helper on an absent `type` is not modelled; component
blocks in every claim carry a `type`. -/
mutual

/-- `processBlock` (generate-content/index.ts:149-170). -/
def processBlock : Nat → Block → List Str
  | depth, .mk typeName text props children =>
      if typeName = none ∧ text.getD [] ≠ [] then [text.getD []]
      else
        let inline := children.isEmpty
        let name :=
          (if inline then [':'] else List.replicate (depth + 2) ':') ++
            pascalToKebab (typeName.getD [])
        let openLine := indent depth ++ name ++ processBlockProps props
        if inline then [openLine]
        else
          openLine :: processBlocks (depth + 1) children ++
            [indent depth ++ List.replicate (depth + 2) ':']

def processBlocks : Nat → List Block → List Str
  | _, [] => []
  | depth, b :: rest => processBlock depth b ++ processBlocks depth rest

end

/-- A page's fetched content (`HcPageContent`): a `state` and block list. -/
structure PageContent where
  state : Str
  blocks : List Block

/-- `json2mdc` (generate-content/index.ts:172-202): `none` models the
JavaScript `undefined` return for absent or unpublished content. -/
def json2mdc (content? : Option PageContent) (entityDef? : Option (Str × Str)) :
    Option Str :=
  match content? with
  | none => none
  | some content =>
      if content.state ≠ str "published" then none
      else
        let opener := match entityDef? with
          | some nf =>
              [str "::hc-dynamic-content" ++ lbrace :: str "entity=\"" ++ nf.1 ++
                str "\" field=\"" ++ nf.2 ++ '"' :: [rbrace]]
          | none => []
        let lines := opener ++ processBlocks 0 content.blocks
        let lines2 := match entityDef? with
          | some _ => lines ++ [str "::"]
          | none => lines
        some (joinLines lines2)

/-- An importing page (`ImportingPage` without entity binding; the model
covers the repository's only call site, where `dynamicPageResolvers` is
always empty, so no page ever carries an entity).  The source's `show`
field is `showMode` here (`show` is a Lean keyword); an absent/falsy
`access` is the empty string. -/
structure HcPage where
  path : Str
  sortedPath : Str
  label : Str
  sort : Nat
  showMode : Str
  access : Str

/-- `getFrontMatter` (generate-content/index.ts:88-100). -/
def getFrontMatter (page : HcPage) (apiUrl : Str) : Str :=
  str "---\n" ++
    (if page.showMode ≠ str "always" then str "navigation: false\n" else []) ++
    str "access: " ++ (if page.access = [] then str "all" else page.access) ++
    str "\n" ++ str "apiUrl: " ++ apiUrl ++ str "\n---\n\n"

/-- All matches of `DYNAMIC_ENTITY_PLACEHOLDER_PATTERN = /:(\w+)\.(\w+)/gim`
in order (JavaScript `input.match(...)`, `null` modelled as `[]`). -/
def entityScan (fuel : Nat) (s : Str) : List Str :=
  match fuel, s with
  | 0, _ => []
  | _, [] => []
  | fuel + 1, c :: t =>
      if c = ':' then
        match t.takeWhile isWordChar, t.dropWhile isWordChar with
        | _ :: _, '.' :: r2 =>
            match r2.takeWhile isWordChar with
            | _ :: _ =>
                (':' :: t.takeWhile isWordChar ++ '.' :: r2.takeWhile isWordChar) ::
                  entityScan fuel (r2.dropWhile isWordChar)
            | [] => entityScan fuel t
        | _, _ => entityScan fuel t
      else entityScan fuel t

def findEntityMatches (s : Str) : List Str := entityScan s.length s

/-- `sortedPath.replace(DYNAMIC_ENTITY_PLACEHOLDER_PATTERN, (_, g1, g2) =>
`__g1.g2__`)` (generate-content/index.ts:308-311). -/
def entityUnderscoreAux (fuel : Nat) (s : Str) : Str :=
  match fuel, s with
  | 0, s => s
  | _, [] => []
  | fuel + 1, c :: t =>
      if c = ':' then
        match t.takeWhile isWordChar, t.dropWhile isWordChar with
        | _ :: _, '.' :: r2 =>
            match r2.takeWhile isWordChar with
            | _ :: _ =>
                str "__" ++ t.takeWhile isWordChar ++ '.' :: r2.takeWhile isWordChar ++
                  str "__" ++ entityUnderscoreAux fuel (r2.dropWhile isWordChar)
            | [] => c :: entityUnderscoreAux fuel t
        | _, _ => c :: entityUnderscoreAux fuel t
      else c :: entityUnderscoreAux fuel t

def entityUnderscore (s : Str) : Str := entityUnderscoreAux s.length s

/-- An entity record, as a string-valued field map;
`lookupEntity` models `entity[prop]` with JavaScript's `undefined`
stringified by `replaceAll` when the field is absent. -/
def lookupEntity (e : List (Str × Str)) (k : Str) : Str :=
  match e.find? (fun kv => kv.1 == k) with
  | some kv => kv.2
  | none => str "undefined"

/-- `placeHolder.replace(`:name.`, '')` — first-occurrence replacement. -/
def stripEntityName (p entityName : Str) : Str :=
  strReplaceFirst p (':' :: entityName ++ ['.']) []

/-- `resolveInputWithEntity` (generate-content/index.ts:204-226), including
the `resolvedInput = (resolvedInput || input).replaceAll(...)` accumulator:
an empty accumulated result makes the next step restart from `input`. -/
def resolveInputWithEntity (input entityName : Str) (e : List (Str × Str)) : Str :=
  let ms := findEntityMatches input
  if ms.isEmpty then input
  else
    ms.foldl
      (fun acc p =>
        strReplaceAll (if acc.isEmpty then input else acc) p
          (lookupEntity e (stripEntityName p entityName)))
      []

/-- Follows the spec's words (refinement comparison for the claim about
`resolveInputWithEntity`): one straightforward pass that replaces every
occurrence of each matched placeholder with the entity record's value for
that field. -/
def specResolveWithEntity (input entityName : Str) (e : List (Str × Str)) : Str :=
  (findEntityMatches input).foldl
    (fun acc p =>
      strReplaceAll acc p (lookupEntity e (stripEntityName p entityName)))
    input

/-- No intermediate accumulator of the pass (before its last step) is the
empty string: under this condition the accumulator reset in
`resolveInputWithEntity` never fires after the first step. -/
def resolveAccsOkAux (entityName : Str) (e : List (Str × Str)) : Str → List Str → Bool
  | _, [] => true
  | acc, p :: ps =>
      let acc2 := strReplaceAll acc p (lookupEntity e (stripEntityName p entityName))
      match ps with
      | [] => true
      | _ :: _ => (!acc2.isEmpty) && resolveAccsOkAux entityName e acc2 ps

def resolveAccsOk (input entityName : Str) (e : List (Str × Str)) : Bool :=
  resolveAccsOkAux entityName e input (findEntityMatches input)

end GC

/-! ## Base placeholder resolver (src/base/modules/generate-content/index.ts) -/

namespace BaseGen

/-- Does a run of word/dot characters match the whole content group of
`/{(\w+\.?)+\w+}/`: dot-separated non-empty word segments, with at least
two word characters overall. -/
def tokenBody (r : Str) : Bool :=
  let segs := splitOnChar '.' r
  segs.all (fun s => !s.isEmpty) && (segs.length ≥ 2 || r.length ≥ 2)

/-- All matches of `/{(\w+\.?)+\w+}/gim` in order
(`input.match(...) || []` in `resolvePlaceholders`). -/
def braceScan (fuel : Nat) (s : Str) : List Str :=
  match fuel, s with
  | 0, _ => []
  | _, [] => []
  | fuel + 1, c :: t =>
      if c = GC.lbrace then
        let r := t.takeWhile (fun d => isWordChar d || d = '.')
        match t.dropWhile (fun d => isWordChar d || d = '.') with
        | d :: r2 =>
            if d = GC.rbrace ∧ tokenBody r then
              (GC.lbrace :: r ++ [GC.rbrace]) :: braceScan fuel r2
            else braceScan fuel t
        | [] => braceScan fuel t
      else braceScan fuel t

def findBraceTokens (s : Str) : List Str := braceScan s.length s

/-- Modelled from the spec: the `get` helper is imported from
`src/base/modules/generate-content/helpers`, which is not under `src/`.
Spec 4.1: replace each token "with the string form of the value found at
that dotted path in the context, or empty string if absent".  The context
is modelled as a finite map from dotted paths to strings. -/
def getCtx (values : List (Str × Str)) (key : Str) : Str :=
  match values.find? (fun kv => kv.1 == key) with
  | some kv => kv.2
  | none => []

/-- `placeholder.replace(/^{(.*)}$/gim, '$1')`: strip the outer braces. -/
def stripBraces (t : Str) : Str := (t.drop 1).dropLast

/-- The inner `replaceInString` of `resolvePlaceholders`
(base generate-content/index.ts:74-85). -/
def replaceInString (values : List (Str × Str)) (input : Str) : Str :=
  (findBraceTokens input).foldl
    (fun acc t => strReplaceAll acc t (getCtx values (stripBraces t)))
    input

/-- `resolvePlaceholders` (base generate-content/index.ts:73-103), string
branch: a non-empty string is passed through `replaceInString`, a falsy
(empty) one is returned as is.  The mapping branch (query-parameter
templates) is outside every claim and not modelled. -/
def resolvePlaceholders (values : List (Str × Str)) (input : Str) : Str :=
  if input.isEmpty then input else replaceInString values input

end BaseGen

/-! ## Page expansion, validation and on-disk layout (cms buildPages and
generateContent), modelled as an explicit effect trace.  File and network
I/O are the spec's external collaborators: one `dumpE` effect stands for a
`dumpFile(content, path, ext)` call, `dumpJsonE` for a `dumpJson` call
(its stringified payload is not inspected by any claim), `fetchE` for a
`fetchEndpoint` call and `rmE` for the recursive `rm` of the content root.
Endpoint URLs come from `HC_ENDPOINTS` (src/cms/common/config, not under
src/), so they are supplied by the oracle. -/

namespace GC

inductive Effect : Type where
  | rmE (path : Str)
  | mkdirE (path : Str)
  | fetchE (url : Str)
  | dumpE (path : Str) (ext : Str) (content : Str)
  | dumpJsonE (path : Str)
deriving DecidableEq

structure Lang where
  code : Str

/-- The external world: endpoint URLs (from the missing `HC_ENDPOINTS`
config) and fetched responses.  `contentOf` is
`endpoint.json.items[0].expand.Content`, `none` when absent. -/
structure Oracle where
  urlOf : HcPage → Str
  contentOf : HcPage → Option PageContent
  langs : List Lang
  urlLangs : Str
  urlLabels : Lang → Str
  urlNav : Lang → Str
  navOf : Lang → List HcPage

/-- `pathCheck` (generate-content/index.ts:300-306): the page path passes
iff the first match of `PATH_CHECK_PATTERN` equals the whole path. -/
def pathOk (p : Str) : Bool :=
  match firstPathRun p with
  | some r => r == p
  | none => false

/-- The thrown validation message (generate-content/index.ts:303-305);
`${PATH_CHECK_PATTERN}` stringifies the regex literal. -/
def pathErrMsg (p : Str) : Str :=
  str "Page path " ++ p ++
    str " contains invalid character(s) => path check pattern: /[/:.a-z0-9-_]+/gm"

/-- `createDir` (generate-content/index.ts:338-339): there is a following
navigation entry and its `sortedPath` `includes` (substring containment)
the current page's `sortedPath`. -/
def createDir (nav : List HcPage) (i : Nat) (page : HcPage) : Bool :=
  match nav.get? (i + 1) with
  | some nxt => strIncludes nxt.sortedPath page.sortedPath
  | none => false

/-- `getEntityDefFromPath` (generate-content/index.ts:233-245): the
last-wins reduction over the path's colon segments; a missing field part
(`p.slice(1).split('.')[1]` being `undefined`) stringifies as
`"undefined"` where the definition is interpolated. -/
def getEntityDefFromPath (pagePath : Str) : Str × Str :=
  ((splitOnChar '/' pagePath).filter (fun seg => strIncludes seg [':'])).foldl
    (fun _ seg =>
      let parts := splitOnChar '.' (seg.drop 1)
      (((parts.get? 0).getD []), ((parts.get? 1).getD (str "undefined"))))
    ([], [])

/-- The effects emitted for one already-validated page of the second
`buildPages` loop (generate-content/index.ts:308-364): the content fetch,
the conditional `_dir.yml` marker, and the markup dump.  With the
repository's always-empty resolver registry no page carries an entity
binding, so the entity-JSON surgery (lines 321-336) is the identity;
`hasDynamicContent` is `path.includes(':')`. -/
def pageEffects (nav : List HcPage) (o : Oracle) (i : Nat) (page : HcPage) :
    List Effect :=
  let ls := entityUnderscore page.sortedPath
  let cd := createDir nav i page
  let dirEffs :=
    if page.showMode == str "never" && cd then
      [Effect.dumpE (ls ++ str "/_dir") (str "yml") (str "navigation: false")]
    else []
  let localPath := if cd then ls ++ str "/0.index" else ls
  let entityDef? :=
    if strIncludes page.path [':'] then some (getEntityDefFromPath page.path)
    else none
  let mdContent :=
    getFrontMatter page (o.urlOf page) ++
      (match json2mdc (o.contentOf page) entityDef? with
       | some s => s
       | none => str "undefined")
  let mdEffs :=
    if mdContent.isEmpty then [] else [Effect.dumpE localPath (str "md") mdContent]
  Effect.fetchE (o.urlOf page) :: dirEffs ++ mdEffs

/-- The returned page's `localPath` after the sort segment and the
trailing index marker are stripped (generate-content/index.ts:366-369). -/
def finalLocalPath (page : HcPage) (cd : Bool) : Str :=
  let ls := entityUnderscore page.sortedPath
  let lp := if cd then ls ++ str "/0.index" else ls
  strReplaceFirst
    (strReplaceFirst lp ('/' :: natStr (page.sort + 1) ++ ['.']) ['/'])
    (str "/0.index") []

structure OutPage where
  page : HcPage
  localPath : Str

/-- The second `buildPages` loop (generate-content/index.ts:298-370): the
emitted effects, the processed pages, and the validation error (if any);
a thrown validation error aborts the loop. -/
def runPages (nav : List HcPage) (o : Oracle) :
    Nat → List HcPage → List Effect × List OutPage × Option Str
  | _, [] => ([], [], none)
  | i, p :: rest =>
      if pathOk p.path then
        let r := runPages nav o (i + 1) rest
        (pageEffects nav o i p ++ r.1,
          ⟨p, finalLocalPath p (createDir nav i p)⟩ :: r.2.1, r.2.2)
      else ([], [], some (pathErrMsg p.path))

/-- `buildPages` for the repository's call site: `dynamicPageResolvers` is
always empty (the custom-endpoint block of cms `generateContent` is
commented out), so the first loop pushes every navigation entry through
unchanged and `pages` equals `navigation`. -/
def buildPages (nav : List HcPage) (o : Oracle) :
    List Effect × List OutPage × Option Str :=
  runPages nav o 0 nav

end GC

namespace GC

/-- Split a line at its last dot: `some (before, after)` when the line
contains a dot. -/
def lastDotSplit (line : Str) : Option (Str × Str) :=
  match line.reverse.dropWhile (fun d => d ≠ '.') with
  | '.' :: revMid =>
      some (revMid.reverse, (line.reverse.takeWhile (fun d => d ≠ '.')).reverse)
  | _ => none

/-- `label.replace(/:(.*)\./gim, '__$1__.')`
(generate-content/index.ts:506): at each colon, greedily capture up to the
last dot on the same line and rewrite to `__..__.`; scanning resumes after
the matched dot. -/
def labelDisplayAux (fuel : Nat) (s : Str) : Str :=
  match fuel, s with
  | 0, s => s
  | _, [] => []
  | fuel + 1, c :: t =>
      if c = ':' then
        let line := t.takeWhile (fun d => d ≠ '\n')
        match lastDotSplit line with
        | some ma =>
            str "__" ++ ma.1 ++ str "__." ++
              labelDisplayAux fuel (ma.2 ++ t.drop line.length)
        | none => c :: labelDisplayAux fuel t
      else c :: labelDisplayAux fuel t

def labelDisplay (s : Str) : Str := labelDisplayAux s.length s

/-- The options of `generateContent`.  `excludeLabelKeyHeads` is the
source's label-key exclusion list (its effect is confined to the abstracted
label-JSON payload). -/
structure Opts where
  apiBaseUrl : Str
  contentRootFolder : Option Str
  excludeLabelKeyHeads : Option (List Str)

/-- The effective content root: `config.contentBasePath` stays `['content']`
unless a truthy `contentRootFolder` is given
(generate-content/index.ts:390-392). -/
def rootFolder (opts : Opts) : Str :=
  match opts.contentRootFolder with
  | some r => if r.isEmpty then str "content" else r
  | none => str "content"

/-- The per-language effects of cms `generateContent`
(generate-content/index.ts:412-511): language directory, labels fetch and
dump, navigation fetch and dump, then `buildPages`; the second component
is the language's contribution to `pageLinks`, the third the propagated
`buildPages` error (if any). -/
def perLang (o : Oracle) (root : Str) (lang : Lang) :
    List Effect × List Str × Option Str :=
  let nav := o.navOf lang
  let bp := runPages nav o 0 nav
  ([Effect.mkdirE (root ++ '/' :: lang.code),
    Effect.fetchE (o.urlLabels lang),
    Effect.dumpJsonE (str "_hc/api/" ++ lang.code ++ str "/labels"),
    Effect.fetchE (o.urlNav lang),
    Effect.dumpJsonE (str "_hc/api/" ++ lang.code ++ str "/navigation")]
      ++ bp.1,
   bp.2.1.map (fun op =>
     str "- [" ++ labelDisplay op.page.label ++ str "](" ++ op.localPath ++ str ")"),
   bp.2.2)

/-- The language loop: a thrown validation error aborts the run. -/
def langsLoop (o : Oracle) (root : Str) :
    List Lang → List Effect × List Str × Option Str
  | [] => ([], [], none)
  | lang :: rest =>
      let pe := perLang o root lang
      match pe.2.2 with
      | some e => (pe.1, pe.2.1, some e)
      | none =>
          let r := langsLoop o root rest
          (pe.1 ++ r.1, pe.2.1 ++ r.2.1, r.2.2)

/-- cms `generateContent` (generate-content/index.ts:375-516) as an effect
trace: cleanup `rm` of the content root, langs fetch and dump, the
per-language loop, and the site-index dump (skipped if a validation error
aborted the run). -/
def generateContentRun (opts : Opts) (o : Oracle) : List Effect × Option Str :=
  let root := rootFolder opts
  let ll := langsLoop o root o.langs
  let base :=
    Effect.rmE root :: Effect.fetchE o.urlLangs ::
      Effect.dumpJsonE (str "_hc/api/langs") :: ll.1
  match ll.2.2 with
  | some e => (base, some e)
  | none => (base ++ [Effect.dumpE (str "index") (str "md") (joinLines ll.2.1)], none)

end GC

/-! ## Remaining definitions: accessors, spec-worded comparison definitions
and concrete fixtures used by counterexamples and witnesses. -/

namespace GC

def Block.props : Block → List (Str × PropVal)
  | .mk _ _ p _ => p

/-- The folding pass at the heart of `resolveInputWithEntity`, with the
accumulator reset to `input` whenever it is empty. -/
def codeFold (input entityName : Str) (e : List (Str × Str)) (ms : List Str)
    (acc : Str) : Str :=
  ms.foldl
    (fun a p =>
      strReplaceAll (if a.isEmpty then input else a) p
        (lookupEntity e (stripEntityName p entityName)))
    acc

/-- Follows the claim's words: the next page's `sortedPath` is a strict
extension of the current page's `sortedPath` (begins with it and is
longer).  For comparison with the code's `includes`-based `createDir`. -/
def specStrictExtension (cur nxt : Str) : Bool :=
  cur.isPrefixOf nxt && decide (nxt ≠ cur)

end GC

namespace Nav

def nvRoot : HcPage := ⟨0, str "/en", str "home", 0, str "always"⟩
def nvA : HcPage := ⟨1, str "/en/a", str "a", 0, str "always"⟩
def nvAX : HcPage := ⟨2, str "/en/a/x", str "x", 0, str "always"⟩
def nvB : HcPage := ⟨3, str "/en/b", str "b", 1, str "always"⟩
def nvXenA : HcPage := ⟨2, str "/x/en/a", str "x", 0, str "always"⟩
def nvAXY : HcPage := ⟨3, str "/en/a/x/y", str "y", 0, str "always"⟩

end Nav

namespace GC

/-- A published content value with no blocks. -/
def pubContent : PageContent := ⟨str "published", []⟩

/-- A concrete oracle for the fixtures below. -/
def oracle0 : Oracle where
  urlOf := fun _ => str "URL"
  contentOf := fun _ => some pubContent
  langs := [⟨str "en"⟩]
  urlLangs := str "LU"
  urlLabels := fun _ => str "LBU"
  urlNav := fun _ => str "NVU"
  navOf := fun _ => []

/-- An oracle answering every content fetch with a draft (unpublished)
content value. -/
def oracleDraft : Oracle where
  urlOf := fun _ => str "URL"
  contentOf := fun _ => some ⟨str "draft", []⟩
  langs := [⟨str "en"⟩]
  urlLangs := str "LU"
  urlLabels := fun _ => str "LBU"
  urlNav := fun _ => str "NVU"
  navOf := fun _ => []

def c1pgA : HcPage := ⟨str "/en/a", str "/en/1.a", str "a", 0, str "always", []⟩
def c1pgX : HcPage := ⟨str "/x/en/a", str "/x/en/1.a", str "x", 0, str "always", []⟩
def c1nav : List HcPage := [c1pgA, c1pgX]

def c2pg : HcPage := ⟨str "/en/d", str "/en/1.d", str "d", 0, str "always", []⟩

def c3item : Block := .mk (some (str "Item")) none [] []
def c3cont : Block := .mk (some (str "Card")) none [] [c3item]

def c4good : HcPage := ⟨str "/en/ok", str "/en/1.ok", str "ok", 0, str "always", []⟩
def c4bad : HcPage := ⟨str "/en/P", str "/en/2.p", str "p", 1, str "always", []⟩
def c4nav : List HcPage := [c4good, c4bad]
def c4empty : HcPage := ⟨[], [], str "e", 0, str "always", []⟩

def c7ent : List (Str × Str) := [(str "b", []), (str "a", [])]

end GC

/-! ## Helper lemmas -/

theorem strIncludes_iff (hay needle : Str) :
    strIncludes hay needle = true ↔ needle <:+: hay := by
  induction hay with
  | nil =>
      simp [strIncludes, List.isEmpty_iff]
  | cons c t ih =>
      simp only [strIncludes, Bool.or_eq_true, ih, List.isPrefixOf_iff_prefix]
      exact (List.infix_cons_iff).symm

theorem append_ne_left (l m : Str) (h : m ≠ []) : l ++ m ≠ l := by
  intro he
  have := congrArg List.length he
  simp at this
  exact h this

theorem takeWhile_beq_self (q : Char → Bool) :
    ∀ t : Str, (t.takeWhile q == t) = t.all q := by
  intro t
  induction t with
  | nil => rfl
  | cons c t ih =>
      by_cases hq : q c
      · simpa [List.takeWhile_cons, hq, List.all_cons, List.cons_beq_cons] using ih
      · simp [List.takeWhile_cons, hq, List.all_cons]

theorem firstPathRun_length :
    ∀ (t r : Str), firstPathRun t = some r → r.length ≤ t.length := by
  intro t
  induction t with
  | nil => intro r h; simp [firstPathRun] at h
  | cons c t ih =>
      intro r h
      by_cases hc : isPathChar c
      · simp [firstPathRun, hc] at h
        subst h
        simpa using (List.takeWhile_sublist (l := t) isPathChar).length_le
      · simp [firstPathRun, hc] at h
        exact (ih r h).trans (by simp)

theorem pathOk_eq (p : Str) : GC.pathOk p = (!p.isEmpty && p.all isPathChar) := by
  induction p with
  | nil => rfl
  | cons c t _ =>
      by_cases hc : isPathChar c
      · simp only [GC.pathOk, firstPathRun, hc, if_pos, List.takeWhile_cons]
        have : ((c :: t.takeWhile isPathChar : Str) == c :: t) =
            (t.takeWhile isPathChar == t) := by
          simp [List.cons_beq_cons]
        simp only [this, takeWhile_beq_self]
        simp [List.all_cons, hc]
      · have hrun : firstPathRun (c :: t) = firstPathRun t := by
          simp [firstPathRun, hc]
        have hfalse : GC.pathOk (c :: t) = false := by
          unfold GC.pathOk
          rw [hrun]
          cases h : firstPathRun t with
          | none => rfl
          | some r =>
              have hlen := firstPathRun_length t r h
              have hne : (r == (c :: t : Str)) = false := by
                apply beq_eq_false_iff_ne.mpr
                intro he
                rw [he] at hlen
                simp at hlen
              simp [hne]
        rw [hfalse]
        simp [List.all_cons, hc]

/-! ## Claim theorems: block serializer and navigation reconstructor -/

/-- C6: on the sorted flat page list `[/en (root), /en/a, /en/a/x, /en/b]`
the navigation reconstructor returns the forest `[{a, children:[x]}, {b}]`:
the root entry is excluded, `/en/a` and `/en/b` are top level (their paths
have exactly two path separators, while `/en/a/x` has three) and `/en/a/x`
is the sole child of `/en/a`. -/
theorem c6_navigation_forest :
    Nav.loadNavigation [Nav.nvRoot, Nav.nvA, Nav.nvAX, Nav.nvB] =
      [ Nav.NavItem.mk 1 (str "/en/a") (str "a") 0 (str "always")
          (some [Nav.NavItem.mk 2 (str "/en/a/x") (str "x") 0 (str "always") none]),
        Nav.NavItem.mk 3 (str "/en/b") (str "b") 1 (str "always") none ]
    ∧ (str "/en/a").count '/' = 2
    ∧ (str "/en/b").count '/' = 2
    ∧ (str "/en/a/x").count '/' = 3 :=
  ⟨rfl, rfl, rfl, rfl⟩

/-- C3 (amended): an inline block (no children) serializes to exactly one
line; a typed container block at depth D produces an opening line whose
colon-run has length D+2 (two colons at depth 0), the recursive
serialization of its children at depth D+1, and a closing line with the
same colon-run, both fence lines prefixed by D spaces (one space per depth
level). -/
theorem c3_block_structure (b : GC.Block) (depth : Nat) :
    (b.children = [] → ∃ l, GC.processBlock depth b = [l]) ∧
    (∀ ty, b.typeName = some ty → b.children ≠ [] →
      GC.processBlock depth b =
        (GC.indent depth ++ List.replicate (depth + 2) ':' ++
            GC.pascalToKebab ty ++ GC.processBlockProps b.props) ::
          GC.processBlocks (depth + 1) b.children ++
            [GC.indent depth ++ List.replicate (depth + 2) ':']) := by
  obtain ⟨ty?, tx?, pr, ch⟩ := b
  constructor
  · intro hch
    cases hch
    simp only [GC.processBlock]
    by_cases hraw : ty? = none ∧ tx?.getD [] ≠ []
    · rw [if_pos hraw]; exact ⟨_, rfl⟩
    · rw [if_neg hraw]; exact ⟨_, rfl⟩
  · intro ty hty hch
    cases hty
    have hinline : ch.isEmpty = false := by
      cases ch with
      | nil => exact absurd rfl hch
      | cons x xs => rfl
    simp only [GC.processBlock]
    rw [if_neg (by simp)]
    simp [hinline, GC.Block.children, GC.Block.props]

/-- Witness for C3's theorem: the container `c3cont` (type `Card`, one
inline `Item` child) at depth 0. -/
theorem c3_block_structure_witness :
    GC.processBlock 0 GC.c3cont =
      (GC.indent 0 ++ List.replicate 2 ':' ++ GC.pascalToKebab (str "Card") ++
          GC.processBlockProps []) ::
        GC.processBlocks 1 [GC.c3item] ++
          [GC.indent 0 ++ List.replicate 2 ':'] :=
  (c3_block_structure GC.c3cont 0).2 (str "Card") rfl
    (by simp [GC.c3cont, GC.Block.children])

/-- Counterexample for C3 as stated: at depth 0 the container's opening
colon-run has length 2, not the three colons the claim's parenthetical
asserts, and the depth-1 child line is indented by one space, not two. -/
theorem c3_counterexample :
    GC.processBlock 0 GC.c3cont = [str "::card", str " :item", str "::"] ∧
    (str ":::").isPrefixOf (str "::card") = false ∧
    (str "  ").isPrefixOf (str " :item") = false :=
  ⟨rfl, rfl, rfl⟩

/-- Counterexample for C5 as stated: `/x/en/a` is not a path-segment
extension of `/en/a`, yet in the run over `[/en, /en/a, /x/en/a]` the page
`/en/a` becomes its parent (the cursor is reassigned because
`"/x/en/a".includes("/en/a")` holds). -/
theorem c5_counterexample :
    Nav.loadNavigation [Nav.nvRoot, Nav.nvA, Nav.nvXenA] =
      [ Nav.NavItem.mk 1 (str "/en/a") (str "a") 0 (str "always")
          (some [Nav.NavItem.mk 2 (str "/x/en/a") (str "x") 0 (str "always") none]) ]
    ∧ Nav.specSegmentExtension (str "/en/a") (str "/x/en/a") = false :=
  ⟨rfl, rfl⟩

/-- C5 (amended): in a loop step with lookahead `next`, the parent cursor
is reassigned to the current page iff the code's `hasChild` condition
holds — the next path differs from, is longer than, and contains the
current path as a substring. -/
theorem c5_parent_reassignment (st : Nav.NavState) (page next : Nav.HcPage)
    (h : ∀ c, st.parent = some c → c.pid ≠ page.id) :
    (∃ c, (Nav.navStep page (some next) st).parent = some c ∧ c.pid = page.id) ↔
      Nav.hasChild page next = true := by
  cases hc : Nav.hasChild page next with
  | true =>
      simp only [Nav.navStep, hc, if_true]
      exact iff_of_true ⟨_, rfl, rfl⟩ trivial
  | false =>
      simp only [Nav.navStep, hc]
      constructor
      · intro hex
        rcases hex with ⟨c, hcur, hpid⟩
        by_cases hfl : Nav.isFirstLevel page
        · simp [hfl] at hcur
        · simp [hfl] at hcur
          exact absurd hpid (h c hcur)
      · intro hfalse
        cases hfalse

/-- Witness for C5's theorem: from the empty state, processing `/en/a` with
lookahead `/en/a/x` reassigns the cursor to `/en/a`. -/
theorem c5_parent_reassignment_witness :
    ∃ c, (Nav.navStep Nav.nvA (some Nav.nvAX) ⟨[], none⟩).parent = some c ∧
      c.pid = Nav.nvA.id :=
  (c5_parent_reassignment ⟨[], none⟩ Nav.nvA Nav.nvAX
    (fun _ hcon => Option.noConfusion hcon)).mpr (by decide)

theorem children_withChildren (n : Nav.NavItem) (o : Option (List Nav.NavItem)) :
    (n.withChildren o).children = o := by
  cases n
  rfl

theorem navAppendLeaf_leaves (nav : List Nav.NavItem) (page : Nav.HcPage)
    (h : ∀ item ∈ nav, ∀ cs, item.children = some cs → ∀ c ∈ cs, c.children = none) :
    ∀ item ∈ nav ++ [Nav.leafOf page], ∀ cs, item.children = some cs →
      ∀ c ∈ cs, c.children = none := by
  intro item hmem cs hcs c hcmem
  rcases List.mem_append.mp hmem with hin | hin
  · exact h item hin cs hcs c hcmem
  · have : item = Nav.leafOf page := by simpa using hin
    subst this
    simp [Nav.leafOf, Nav.NavItem.children] at hcs

theorem navPushChild_leaves (nav : List Nav.NavItem) (pid : Nat) (page : Nav.HcPage)
    (h : ∀ item ∈ nav, ∀ cs, item.children = some cs → ∀ c ∈ cs, c.children = none) :
    ∀ item ∈ Nav.navPushChild nav pid (Nav.leafOf page), ∀ cs,
      item.children = some cs → ∀ c ∈ cs, c.children = none := by
  induction nav with
  | nil => simp [Nav.navPushChild]
  | cons it rest ih =>
      intro item hmem cs hcs c hcmem
      simp only [Nav.navPushChild] at hmem
      by_cases hid : it.pageId = pid
      · rw [if_pos hid] at hmem
        rcases List.mem_cons.mp hmem with rfl | hmem2
        · rw [children_withChildren] at hcs
          injection hcs with hcs2
          subst hcs2
          rcases List.mem_append.mp hcmem with hin | hin
          · cases hold : it.children with
            | none => rw [hold] at hin; simp at hin
            | some old =>
                rw [hold] at hin
                exact h it (List.mem_cons_self _ _) old hold c (by simpa using hin)
          · have : c = Nav.leafOf page := by simpa using hin
            subst this
            rfl
        · exact h _ (List.mem_cons_of_mem _ hmem2) cs hcs c hcmem
      · rw [if_neg hid] at hmem
        rcases List.mem_cons.mp hmem with rfl | hmem2
        · exact h _ (List.mem_cons_self _ _) cs hcs c hcmem
        · exact ih (fun i hi => h i (List.mem_cons_of_mem _ hi)) _ hmem2 cs hcs c hcmem

theorem navReplaceFirst_leaves (nav : List Nav.NavItem) (pid : Nat) (page : Nav.HcPage)
    (h : ∀ item ∈ nav, ∀ cs, item.children = some cs → ∀ c ∈ cs, c.children = none) :
    ∀ item ∈ Nav.navReplaceFirst nav pid (Nav.leafOf page), ∀ cs,
      item.children = some cs → ∀ c ∈ cs, c.children = none := by
  induction nav with
  | nil => simp [Nav.navReplaceFirst]
  | cons it rest ih =>
      intro item hmem cs hcs c hcmem
      simp only [Nav.navReplaceFirst] at hmem
      by_cases hid : it.pageId = pid
      · rw [if_pos hid] at hmem
        rcases List.mem_cons.mp hmem with rfl | hmem2
        · simp [Nav.leafOf, Nav.NavItem.children] at hcs
        · exact h _ (List.mem_cons_of_mem _ hmem2) cs hcs c hcmem
      · rw [if_neg hid] at hmem
        rcases List.mem_cons.mp hmem with rfl | hmem2
        · exact h _ (List.mem_cons_self _ _) cs hcs c hcmem
        · exact ih (fun i hi => h i (List.mem_cons_of_mem _ hi)) _ hmem2 cs hcs c hcmem

theorem navStepNav1_leaves (page : Nav.HcPage) (st : Nav.NavState)
    (h : ∀ item ∈ st.nav, ∀ cs, item.children = some cs → ∀ c ∈ cs, c.children = none) :
    ∀ item ∈ Nav.navStepNav1 page st, ∀ cs, item.children = some cs →
      ∀ c ∈ cs, c.children = none := by
  unfold Nav.navStepNav1
  by_cases hfl : Nav.isFirstLevel page
  · simp only [hfl, if_true]
    exact navAppendLeaf_leaves st.nav page h
  · simp only [hfl, if_false, Bool.false_eq_true]
    cases hp : st.parent with
    | none => exact navAppendLeaf_leaves st.nav page h
    | some cur =>
        by_cases hatt : cur.attached
        · simp only [hatt, if_true]
          exact navPushChild_leaves st.nav cur.pid page h
        · simp only [hatt, if_false, Bool.false_eq_true]
          exact h

theorem navStep_leaves (page : Nav.HcPage) (next? : Option Nav.HcPage)
    (st : Nav.NavState)
    (h : ∀ item ∈ st.nav, ∀ cs, item.children = some cs → ∀ c ∈ cs, c.children = none) :
    ∀ item ∈ (Nav.navStep page next? st).nav, ∀ cs, item.children = some cs →
      ∀ c ∈ cs, c.children = none := by
  cases next? with
  | none => exact navStepNav1_leaves page st h
  | some nxt =>
      cases hc : Nav.hasChild page nxt with
      | false =>
          have he : (Nav.navStep page (some nxt) st).nav = Nav.navStepNav1 page st := by
            simp [Nav.navStep, hc]
          rw [he]
          exact navStepNav1_leaves page st h
      | true =>
          have he : (Nav.navStep page (some nxt) st).nav =
              (if Nav.navHasId (Nav.navStepNav1 page st) page.id then
                Nav.navReplaceFirst (Nav.navStepNav1 page st) page.id (Nav.leafOf page)
              else Nav.navStepNav1 page st) := by
            simp [Nav.navStep, hc]
          rw [he]
          by_cases hatt : Nav.navHasId (Nav.navStepNav1 page st) page.id
          · rw [if_pos hatt]
            exact navReplaceFirst_leaves _ _ _ (navStepNav1_leaves page st h)
          · rw [if_neg hatt]
            exact navStepNav1_leaves page st h

theorem navLoop_leaves (ps : List Nav.HcPage) :
    ∀ st : Nav.NavState,
      (∀ item ∈ st.nav, ∀ cs, item.children = some cs → ∀ c ∈ cs, c.children = none) →
      ∀ item ∈ (Nav.navLoop ps st).nav, ∀ cs, item.children = some cs →
        ∀ c ∈ cs, c.children = none := by
  induction ps with
  | nil => intro st h; exact h
  | cons p rest ih =>
      intro st h
      cases rest with
      | nil => exact navStep_leaves p none st h
      | cons q r =>
          exact ih (Nav.navStep p (some q) st) (navStep_leaves p (some q) st h)

/-- C9: for every input page list, the reconstructed navigation forest has
depth at most two — a child of a top-level node never carries children of
its own (pages three or more levels below the language root end up on a
detached cursor and are dropped). -/
theorem c9_depth_at_most_two (pageList : List Nav.HcPage) :
    ∀ item ∈ Nav.loadNavigation pageList, ∀ cs, item.children = some cs →
      ∀ c ∈ cs, c.children = none :=
  navLoop_leaves (pageList.drop 1) ⟨[], none⟩ (by simp)

/-- Witness for C9's theorem: in the run over
`[/en, /en/a, /en/a/x, /en/a/x/y]`, the child `/en/a/x` of the top-level
node `/en/a` has no children (and `/en/a/x/y` was dropped). -/
theorem c9_depth_at_most_two_witness :
    (Nav.NavItem.mk 2 (str "/en/a/x") (str "x") 0 (str "always") none).children = none := by
  have hl : Nav.loadNavigation [Nav.nvRoot, Nav.nvA, Nav.nvAX, Nav.nvAXY] =
      [Nav.NavItem.mk 1 (str "/en/a") (str "a") 0 (str "always")
        (some [Nav.NavItem.mk 2 (str "/en/a/x") (str "x") 0 (str "always") none])] := rfl
  refine c9_depth_at_most_two [Nav.nvRoot, Nav.nvA, Nav.nvAX, Nav.nvAXY]
    (Nav.NavItem.mk 1 (str "/en/a") (str "a") 0 (str "always")
      (some [Nav.NavItem.mk 2 (str "/en/a/x") (str "x") 0 (str "always") none]))
    ?_ [Nav.NavItem.mk 2 (str "/en/a/x") (str "x") 0 (str "always") none] rfl
    _ (List.mem_singleton.mpr rfl)
  rw [hl]
  exact List.mem_singleton.mpr rfl

/-! ## Claim theorems: placeholder and entity expansion -/

theorem codeFold_eq_plain (input entityName : Str) (e : List (Str × Str)) :
    ∀ (ms : List Str) (acc : Str), acc ≠ [] →
      GC.resolveAccsOkAux entityName e acc ms = true →
      GC.codeFold input entityName e ms acc =
        ms.foldl
          (fun a p =>
            strReplaceAll a p (GC.lookupEntity e (GC.stripEntityName p entityName)))
          acc := by
  intro ms
  induction ms with
  | nil => intro acc _ _; rfl
  | cons p ps ih =>
      intro acc hne hok
      have hmt : acc.isEmpty = false := by
        cases acc with
        | nil => exact absurd rfl hne
        | cons x xs => rfl
      simp only [GC.codeFold, List.foldl_cons, hmt, Bool.false_eq_true, if_false]
      cases ps with
      | nil => rfl
      | cons q qs =>
          have hstep : GC.resolveAccsOkAux entityName e acc (p :: q :: qs) =
              ((!(strReplaceAll acc p
                    (GC.lookupEntity e (GC.stripEntityName p entityName))).isEmpty) &&
                GC.resolveAccsOkAux entityName e
                  (strReplaceAll acc p
                    (GC.lookupEntity e (GC.stripEntityName p entityName)))
                  (q :: qs)) := rfl
          rw [hstep] at hok
          simp only [Bool.and_eq_true] at hok
          obtain ⟨h1, h2⟩ := hok
          have hne2 : strReplaceAll acc p
              (GC.lookupEntity e (GC.stripEntityName p entityName)) ≠ [] := by
            intro hzero
            rw [hzero] at h1
            simp at h1
          exact ih _ hne2 h2

/-- C7 (amended): entity placeholder expansion returns the string unchanged
when it contains no `:identifier.identifier` pattern; otherwise it performs
one pass of sequential `replaceAll` steps, one per matched placeholder with
the entity record's value for the stripped field — provided no intermediate
accumulated result of the pass is empty (an empty intermediate restarts the
pass from the original input, losing earlier replacements). -/
theorem c7_entity_expansion (input entityName : Str) (e : List (Str × Str)) :
    (GC.findEntityMatches input = [] →
      GC.resolveInputWithEntity input entityName e = input)
    ∧ (GC.resolveAccsOk input entityName e = true →
        GC.resolveInputWithEntity input entityName e =
          GC.specResolveWithEntity input entityName e) := by
  constructor
  · intro hnone
    simp [GC.resolveInputWithEntity, hnone]
  · intro hok
    unfold GC.resolveInputWithEntity GC.specResolveWithEntity
    cases hms : GC.findEntityMatches input with
    | nil => simp
    | cons p ps =>
        rw [if_neg (by simp)]
        have hfirst : (p :: ps).foldl
            (fun acc q => strReplaceAll (if acc.isEmpty then input else acc) q
              (GC.lookupEntity e (GC.stripEntityName q entityName))) ([] : Str) =
            GC.codeFold input entityName e ps
              (strReplaceAll input p
                (GC.lookupEntity e (GC.stripEntityName p entityName))) := rfl
        rw [hfirst, List.foldl_cons]
        cases ps with
        | nil => rfl
        | cons q qs =>
            have hstep : GC.resolveAccsOk input entityName e =
                ((!(strReplaceAll input p
                      (GC.lookupEntity e (GC.stripEntityName p entityName))).isEmpty) &&
                  GC.resolveAccsOkAux entityName e
                    (strReplaceAll input p
                      (GC.lookupEntity e (GC.stripEntityName p entityName)))
                    (q :: qs)) := by
              unfold GC.resolveAccsOk
              rw [hms]
              rfl
            rw [hstep] at hok
            simp only [Bool.and_eq_true] at hok
            obtain ⟨h1, h2⟩ := hok
            have hne2 : strReplaceAll input p
                (GC.lookupEntity e (GC.stripEntityName p entityName)) ≠ [] := by
              intro hzero
              rw [hzero] at h1
              simp at h1
            exact codeFold_eq_plain input entityName e (q :: qs) _ hne2 h2

/-- Counterexample for C7 as stated: on `":e.b:e.a:e.a"` with the entity
`{b: "", a: ""}`, the second replacement step empties the accumulator, the
third restarts from the original input, and the matched placeholder
`":e.b"` reappears unreplaced in the output (a straightforward pass would
return the empty string). -/
theorem c7_counterexample :
    (str ":e.b") ∈ GC.findEntityMatches (str ":e.b:e.a:e.a")
    ∧ GC.resolveInputWithEntity (str ":e.b:e.a:e.a") (str "e") GC.c7ent = str ":e.b"
    ∧ strIncludes
        (GC.resolveInputWithEntity (str ":e.b:e.a:e.a") (str "e") GC.c7ent)
        (str ":e.b") = true
    ∧ GC.specResolveWithEntity (str ":e.b:e.a:e.a") (str "e") GC.c7ent = [] :=
  ⟨by decide, rfl, rfl, rfl⟩

/-- Witness for C7's theorem: a pattern-free string passes through
unchanged, and a single-placeholder string is expanded exactly as by the
straightforward pass. -/
theorem c7_entity_expansion_witness :
    GC.resolveInputWithEntity (str "plain text") (str "e") GC.c7ent = str "plain text"
    ∧ GC.resolveInputWithEntity (str ":e.a hello") (str "e") [(str "a", str "X")] =
        GC.specResolveWithEntity (str ":e.a hello") (str "e") [(str "a", str "X")] :=
  ⟨(c7_entity_expansion (str "plain text") (str "e") GC.c7ent).1 (by decide),
   (c7_entity_expansion (str ":e.a hello") (str "e") [(str "a", str "X")]).2 (by decide)⟩

/-- C8: placeholder substitution is idempotent once stable — if the output
of `resolvePlaceholders` contains no remaining `{a.b}` token, running it
again on that output returns it unchanged. -/
theorem c8_idempotent (values : List (Str × Str)) (s : Str)
    (h : BaseGen.findBraceTokens (BaseGen.resolvePlaceholders values s) = []) :
    BaseGen.resolvePlaceholders values (BaseGen.resolvePlaceholders values s) =
      BaseGen.resolvePlaceholders values s := by
  set out := BaseGen.resolvePlaceholders values s with hout
  by_cases hemp : out.isEmpty = true
  · conv_lhs => unfold BaseGen.resolvePlaceholders
    rw [if_pos hemp]
  · conv_lhs => unfold BaseGen.resolvePlaceholders
    rw [if_neg hemp]
    unfold BaseGen.replaceInString
    rw [h]
    rfl

/-- Witness for C8's theorem: substituting `v` for the token in
`x{a.b}y` (written with escaped braces) leaves no token, and a second run
is the identity. -/
theorem c8_idempotent_witness :
    BaseGen.resolvePlaceholders [(str "a.b", str "v")]
        (BaseGen.resolvePlaceholders [(str "a.b", str "v")] (str "x\x7ba.b\x7dy")) =
      BaseGen.resolvePlaceholders [(str "a.b", str "v")] (str "x\x7ba.b\x7dy") :=
  c8_idempotent _ _ (by decide)

theorem getFrontMatter_ne_nil (page : GC.HcPage) (u : Str) :
    GC.getFrontMatter page u ≠ [] := by
  intro h
  unfold GC.getFrontMatter at h
  rw [show str "---\n" = '-' :: str "--\n" from rfl] at h
  simp at h

theorem isEmpty_append_front (page : GC.HcPage) (u : Str) (x : Str) :
    (GC.getFrontMatter page u ++ x).isEmpty = false := by
  cases hfm : GC.getFrontMatter page u with
  | nil => exact absurd hfm (getFrontMatter_ne_nil page u)
  | cons a t => rfl

theorem pageEffects_eq (nav : List GC.HcPage) (o : GC.Oracle) (i : Nat)
    (page : GC.HcPage) :
    GC.pageEffects nav o i page =
      GC.Effect.fetchE (o.urlOf page) ::
        (if page.showMode == str "never" && GC.createDir nav i page then
          [GC.Effect.dumpE (GC.entityUnderscore page.sortedPath ++ str "/_dir")
            (str "yml") (str "navigation: false")]
        else []) ++
        [GC.Effect.dumpE
          (if GC.createDir nav i page then
            GC.entityUnderscore page.sortedPath ++ str "/0.index"
          else GC.entityUnderscore page.sortedPath)
          (str "md")
          (GC.getFrontMatter page (o.urlOf page) ++
            (match GC.json2mdc (o.contentOf page)
                (if strIncludes page.path [':'] then
                  some (GC.getEntityDefFromPath page.path)
                else none) with
             | some s => s
             | none => str "undefined"))] := by
  simp only [GC.pageEffects, isEmpty_append_front, Bool.false_eq_true, if_false]

theorem createDir_iff (nav : List GC.HcPage) (i : Nat) (page : GC.HcPage) :
    GC.createDir nav i page = true ↔
      ∃ nxt, nav.get? (i + 1) = some nxt ∧
        strIncludes nxt.sortedPath page.sortedPath = true := by
  unfold GC.createDir
  cases h : nav.get? (i + 1) with
  | none => simp
  | some nxt => simp

/-- C1 (amended): a page is treated as a directory page — its markup
written to `<localSortedPath>/0.index` — iff there is an immediately
following navigation entry whose `sortedPath` contains the current page's
`sortedPath` as a substring (`includes`, not strict-extension), and the
`navigation: false` `_dir.yml` marker is emitted iff additionally the
page's show is `never`. -/
theorem c1_directory_detection (nav : List GC.HcPage) (o : GC.Oracle) (i : Nat)
    (page : GC.HcPage) :
    ((∃ c, GC.Effect.dumpE (GC.entityUnderscore page.sortedPath ++ str "/0.index")
        (str "md") c ∈ GC.pageEffects nav o i page) ↔
      (∃ nxt, nav.get? (i + 1) = some nxt ∧
        strIncludes nxt.sortedPath page.sortedPath = true))
    ∧ ((GC.Effect.dumpE (GC.entityUnderscore page.sortedPath ++ str "/_dir")
        (str "yml") (str "navigation: false") ∈ GC.pageEffects nav o i page) ↔
      ((∃ nxt, nav.get? (i + 1) = some nxt ∧
          strIncludes nxt.sortedPath page.sortedPath = true) ∧
        page.showMode = str "never")) := by
  rw [← createDir_iff nav i page]
  rw [pageEffects_eq]
  have hpath : GC.entityUnderscore page.sortedPath ++ str "/0.index" ≠
      GC.entityUnderscore page.sortedPath :=
    append_ne_left _ _ (by decide)
  have hext : (str "md" : Str) ≠ str "yml" := by decide
  have hyml : (str "yml" : Str) ≠ str "md" := by decide
  constructor
  · cases hcd : GC.createDir nav i page with
    | true =>
        simp only [hcd, if_true, Bool.and_true]
        constructor
        · intro _; trivial
        · intro _
          exact ⟨_, List.mem_cons_of_mem _
            (List.mem_append_right _ (List.mem_singleton.mpr rfl))⟩
    | false =>
        simp only [hcd, Bool.and_false, Bool.false_eq_true, if_false]
        constructor
        · intro hex
          rcases hex with ⟨c, hc⟩
          simp [hpath] at hc
        · intro hfalse
          exact absurd hfalse (by simp)
  · cases hcd : GC.createDir nav i page with
    | true =>
        simp only [hcd, Bool.and_true]
        cases hnv : page.showMode == str "never" with
        | true =>
            have heq : page.showMode = str "never" := beq_iff_eq.mp hnv
            simp [heq, List.mem_cons, List.mem_append]
        | false =>
            have hne : page.showMode ≠ str "never" := by
              intro h
              rw [h] at hnv
              simp at hnv
            constructor
            · intro hc
              simp [hyml] at hc
            · intro hc
              exact absurd hc.2 hne
    | false =>
        simp only [hcd, Bool.and_false, Bool.false_eq_true, if_false]
        constructor
        · intro hc
          simp [hyml] at hc
        · intro hc
          exact absurd hc.1 (by simp)

/-- Counterexample for C1 as stated: `/x/en/1.a` is not a strict extension
of `/en/1.a`, yet because `"/x/en/1.a".includes("/en/1.a")` holds the page
with sorted path `/en/1.a` is treated as a directory page (its markup is
dumped at `/en/1.a/0.index`). -/
theorem c1_counterexample :
    (∃ c, GC.Effect.dumpE (str "/en/1.a/0.index") (str "md") c ∈
        GC.pageEffects GC.c1nav GC.oracle0 0 GC.c1pgA)
    ∧ GC.specStrictExtension (str "/en/1.a") (str "/x/en/1.a") = false :=
  ⟨⟨str "---\naccess: all\napiUrl: URL\n---\n\n", by decide⟩, by decide⟩

theorem pathOk_false_iff (p : Str) :
    GC.pathOk p = false ↔ (p = [] ∨ ∃ c ∈ p, isPathChar c = false) := by
  rw [pathOk_eq]
  constructor
  · intro h
    by_cases hp : p = []
    · exact Or.inl hp
    · right
      have hie : p.isEmpty = false := by
        cases p with
        | nil => exact absurd rfl hp
        | cons a b => rfl
      rw [hie] at h
      simp only [Bool.not_false, Bool.true_and] at h
      rcases List.all_eq_false.mp h with ⟨c, hc, hfc⟩
      exact ⟨c, hc, by simpa using hfc⟩
  · intro h
    rcases h with rfl | ⟨c, hc, hfc⟩
    · rfl
    · have hall : p.all isPathChar = false :=
        List.all_eq_false.mpr ⟨c, hc, by simp [hfc]⟩
      rw [hall]
      simp

theorem pathErrMsg_includes (p : Str) :
    strIncludes (GC.pathErrMsg p) p = true ∧
    strIncludes (GC.pathErrMsg p) (str "/[/:.a-z0-9-_]+/gm") = true := by
  have hsplit :
      str " contains invalid character(s) => path check pattern: /[/:.a-z0-9-_]+/gm" =
        str " contains invalid character(s) => path check pattern: " ++
          str "/[/:.a-z0-9-_]+/gm" := rfl
  constructor
  · rw [strIncludes_iff]
    exact ⟨str "Page path ",
      str " contains invalid character(s) => path check pattern: /[/:.a-z0-9-_]+/gm",
      rfl⟩
  · rw [strIncludes_iff]
    refine ⟨str "Page path " ++ p ++
      str " contains invalid character(s) => path check pattern: ", [], ?_⟩
    rw [List.append_nil, GC.pathErrMsg, hsplit, List.append_assoc]

theorem runPages_cons_ok (nav : List GC.HcPage) (o : GC.Oracle) (i : Nat)
    (p : GC.HcPage) (rest : List GC.HcPage) (hp : GC.pathOk p.path = true) :
    GC.runPages nav o i (p :: rest) =
      (GC.pageEffects nav o i p ++ (GC.runPages nav o (i + 1) rest).1,
        ⟨p, GC.finalLocalPath p (GC.createDir nav i p)⟩ ::
          (GC.runPages nav o (i + 1) rest).2.1,
        (GC.runPages nav o (i + 1) rest).2.2) := by
  simp [GC.runPages, hp]

theorem runPages_cons_bad (nav : List GC.HcPage) (o : GC.Oracle) (i : Nat)
    (p : GC.HcPage) (rest : List GC.HcPage) (hp : GC.pathOk p.path = false) :
    GC.runPages nav o i (p :: rest) = ([], [], some (GC.pathErrMsg p.path)) := by
  simp [GC.runPages, hp]

theorem runPages_err_iff (nav : List GC.HcPage) (o : GC.Oracle)
    (ps : List GC.HcPage) :
    ∀ i, (GC.runPages nav o i ps).2.2.isSome = true ↔
      ∃ p ∈ ps, GC.pathOk p.path = false := by
  induction ps with
  | nil => intro i; simp [GC.runPages]
  | cons p rest ih =>
      intro i
      by_cases hp : GC.pathOk p.path = true
      · rw [runPages_cons_ok nav o i p rest hp]
        simp only [List.mem_cons]
        rw [ih (i + 1)]
        constructor
        · intro ⟨q, hq, hbad⟩
          exact ⟨q, Or.inr hq, hbad⟩
        · intro ⟨q, hq, hbad⟩
          rcases hq with rfl | hq
          · rw [hp] at hbad; cases hbad
          · exact ⟨q, hq, hbad⟩
      · have hp2 : GC.pathOk p.path = false := by
          cases h : GC.pathOk p.path
          · rfl
          · exact absurd h hp
        rw [runPages_cons_bad nav o i p rest hp2]
        simp only [Option.isSome_some, true_iff]
        exact ⟨p, List.mem_cons_self _ _, hp2⟩

theorem runPages_stops (nav : List GC.HcPage) (o : GC.Oracle) :
    ∀ (ps : List GC.HcPage) (i k : Nat) (page : GC.HcPage),
      ps.get? k = some page → GC.pathOk page.path = false →
      (∀ j q, j < k → ps.get? j = some q → GC.pathOk q.path = true) →
      (GC.runPages nav o i ps).2.2 = some (GC.pathErrMsg page.path)
      ∧ (GC.runPages nav o i ps).1 = (GC.runPages nav o i (ps.take k)).1 := by
  intro ps
  induction ps with
  | nil => intro i k page hget; simp at hget
  | cons p rest ih =>
      intro i k page hget hbad hok
      cases k with
      | zero =>
          simp at hget
          subst hget
          rw [runPages_cons_bad nav o i p rest hbad]
          simp [GC.runPages]
      | succ k =>
          have hp : GC.pathOk p.path = true := hok 0 p (Nat.succ_pos k) rfl
          rw [List.take_succ_cons, runPages_cons_ok nav o i p rest hp,
            runPages_cons_ok nav o i p (rest.take k) hp]
          have hget2 : rest.get? k = some page := hget
          have hok2 : ∀ j q, j < k → rest.get? j = some q →
              GC.pathOk q.path = true := by
            intro j q hj hq
            exact hok (j + 1) q (Nat.succ_lt_succ hj) hq
          obtain ⟨he, hf⟩ := ih (i + 1) k page hget2 hbad hok2
          exact ⟨he, by rw [hf]⟩

/-- C4 (amended): buildPages raises an error iff some page's path is empty
or contains a character outside `[a-z0-9/:_.-]`; the error carries the
first offending page's path and the validation pattern, and it is fatal —
the emitted effects are exactly those of the pages before the offending
one. -/
theorem c4_path_validation (nav : List GC.HcPage) (o : GC.Oracle) :
    ((GC.runPages nav o 0 nav).2.2.isSome = true ↔
      ∃ p ∈ nav, p.path = [] ∨ ∃ ch ∈ p.path, isPathChar ch = false)
    ∧ (∀ k page, nav.get? k = some page →
        GC.pathOk page.path = false →
        (∀ j q, j < k → nav.get? j = some q → GC.pathOk q.path = true) →
        (GC.runPages nav o 0 nav).2.2 = some (GC.pathErrMsg page.path)
        ∧ strIncludes (GC.pathErrMsg page.path) page.path = true
        ∧ strIncludes (GC.pathErrMsg page.path) (str "/[/:.a-z0-9-_]+/gm") = true
        ∧ (GC.runPages nav o 0 nav).1 = (GC.runPages nav o 0 (nav.take k)).1) := by
  constructor
  · rw [runPages_err_iff nav o nav 0]
    constructor
    · intro ⟨p, hp, hbad⟩
      exact ⟨p, hp, (pathOk_false_iff p.path).mp hbad⟩
    · intro ⟨p, hp, hbad⟩
      exact ⟨p, hp, (pathOk_false_iff p.path).mpr hbad⟩
  · intro k page hget hbad hok
    obtain ⟨he, hf⟩ := runPages_stops nav o nav 0 k page hget hbad hok
    exact ⟨he, (pathErrMsg_includes page.path).1,
      (pathErrMsg_includes page.path).2, hf⟩

/-- Counterexample for C4 as stated: a page with an empty path contains no
character outside the allowed set, yet the run raises a validation error
(JavaScript `''.match(PATH_CHECK_PATTERN)` is `null`). -/
theorem c4_counterexample :
    ((GC.runPages [GC.c4empty] GC.oracle0 0 [GC.c4empty]).2.2).isSome = true
    ∧ GC.c4empty.path = []
    ∧ ¬∃ ch ∈ GC.c4empty.path, isPathChar ch = false :=
  ⟨by decide, rfl, by simp [GC.c4empty]⟩

/-- Witness for C4's theorem: in `[/en/ok, /en/P]` the second page fails
validation (uppercase `P`), the run errors with its message, and only the
first page's effects are emitted. -/
theorem c4_path_validation_witness :
    (GC.runPages GC.c4nav GC.oracle0 0 GC.c4nav).2.2 =
      some (GC.pathErrMsg (str "/en/P")) ∧
    (GC.runPages GC.c4nav GC.oracle0 0 GC.c4nav).1 =
      (GC.runPages GC.c4nav GC.oracle0 0 (GC.c4nav.take 1)).1 := by
  have hj : ∀ j q, j < 1 → GC.c4nav.get? j = some q → GC.pathOk q.path = true := by
    intro j q hjlt hq
    have hj0 : j = 0 := Nat.lt_one_iff.mp hjlt
    subst hj0
    rw [show GC.c4nav.get? 0 = some GC.c4good from rfl] at hq
    injection hq with hq2
    subst hq2
    decide
  have h := (c4_path_validation GC.c4nav GC.oracle0).2 1 GC.c4bad rfl (by decide) hj
  exact ⟨h.1, h.2.2.2⟩

/-- C2 is violated by the code (code bug): for a page whose fetched
content is in state `draft`, the serializer returns no output, yet the
markup file is still written — `getFrontMatter(page, url) + json2mdc(...)`
concatenates the front matter with JavaScript `undefined`, producing a
truthy string ending in `"undefined"`, so the `if (mdContent)` guard never
skips the write. -/
theorem c2_unpublished_written :
    GC.json2mdc (some ⟨str "draft", []⟩) none = none
    ∧ GC.pageEffects [GC.c2pg] GC.oracleDraft 0 GC.c2pg =
        [GC.Effect.fetchE (str "URL"),
         GC.Effect.dumpE (str "/en/1.d") (str "md")
           (str "---\naccess: all\napiUrl: URL\n---\n\nundefined")]
    ∧ strIncludes (str "---\naccess: all\napiUrl: URL\n---\n\nundefined")
        (str "undefined") = true :=
  ⟨rfl, rfl, by decide⟩

theorem pageEffects_no_rm (nav : List GC.HcPage) (o : GC.Oracle) (i : Nat)
    (page : GC.HcPage) :
    ∀ e ∈ GC.pageEffects nav o i page, ∀ q, e ≠ GC.Effect.rmE q := by
  intro e he q
  rw [pageEffects_eq] at he
  rcases List.mem_cons.mp he with rfl | he2
  · exact fun h => GC.Effect.noConfusion h
  · rcases List.mem_append.mp he2 with h3 | h3
    · by_cases hcond : (page.showMode == str "never" && GC.createDir nav i page) = true
      · rw [if_pos hcond] at h3
        have : e = GC.Effect.dumpE
            (GC.entityUnderscore page.sortedPath ++ str "/_dir") (str "yml")
            (str "navigation: false") := by simpa using h3
        subst this
        exact fun h => GC.Effect.noConfusion h
      · rw [if_neg hcond] at h3
        simp at h3
    · have : e = GC.Effect.dumpE
          (if GC.createDir nav i page then
            GC.entityUnderscore page.sortedPath ++ str "/0.index"
          else GC.entityUnderscore page.sortedPath)
          (str "md")
          (GC.getFrontMatter page (o.urlOf page) ++
            (match GC.json2mdc (o.contentOf page)
                (if strIncludes page.path [':'] then
                  some (GC.getEntityDefFromPath page.path)
                else none) with
             | some s => s
             | none => str "undefined")) := by simpa using h3
      subst this
      exact fun h => GC.Effect.noConfusion h

theorem runPages_no_rm (nav : List GC.HcPage) (o : GC.Oracle) :
    ∀ (ps : List GC.HcPage) (i : Nat),
      ∀ e ∈ (GC.runPages nav o i ps).1, ∀ q, e ≠ GC.Effect.rmE q := by
  intro ps
  induction ps with
  | nil => intro i e he; simp [GC.runPages] at he
  | cons p rest ih =>
      intro i e he q
      by_cases hp : GC.pathOk p.path = true
      · rw [runPages_cons_ok nav o i p rest hp] at he
        rcases List.mem_append.mp he with h | h
        · exact pageEffects_no_rm nav o i p e h q
        · exact ih (i + 1) e h q
      · have hp2 : GC.pathOk p.path = false := by
          cases h2 : GC.pathOk p.path
          · rfl
          · exact absurd h2 hp
        rw [runPages_cons_bad nav o i p rest hp2] at he
        simp at he

theorem perLang_no_rm (o : GC.Oracle) (root : Str) (lang : GC.Lang) :
    ∀ e ∈ (GC.perLang o root lang).1, ∀ q, e ≠ GC.Effect.rmE q := by
  intro e he q
  unfold GC.perLang at he
  rcases List.mem_append.mp he with h | h
  · simp only [List.mem_cons, List.not_mem_nil, or_false] at h
    rcases h with rfl | rfl | rfl | rfl | rfl <;>
      exact fun hx => GC.Effect.noConfusion hx
  · exact runPages_no_rm (o.navOf lang) o (o.navOf lang) 0 e h q

theorem langsLoop_no_rm (o : GC.Oracle) (root : Str) :
    ∀ (langs : List GC.Lang),
      ∀ e ∈ (GC.langsLoop o root langs).1, ∀ q, e ≠ GC.Effect.rmE q := by
  intro langs
  induction langs with
  | nil => intro e he; simp [GC.langsLoop] at he
  | cons lang rest ih =>
      intro e he q
      simp only [GC.langsLoop] at he
      cases hpe : (GC.perLang o root lang).2.2 with
      | some err =>
          rw [hpe] at he
          exact perLang_no_rm o root lang e he q
      | none =>
          rw [hpe] at he
          rcases List.mem_append.mp he with h | h
          · exact perLang_no_rm o root lang e h q
          · exact ih e h q

/-- C10: every run of `generateContent` begins by recursively deleting the
content root folder (the configured `contentRootFolder`, default
`content`) before any fetch or write — the `rm` is the first emitted
effect and no other effect of the run is a removal. -/
theorem c10_cleanup_first (opts : GC.Opts) (o : GC.Oracle) :
    ∃ rest, (GC.generateContentRun opts o).1 =
        GC.Effect.rmE (GC.rootFolder opts) :: rest
      ∧ ∀ e ∈ rest, ∀ p, e ≠ GC.Effect.rmE p := by
  simp only [GC.generateContentRun]
  cases hll : (GC.langsLoop o (GC.rootFolder opts) o.langs).2.2 with
  | some err =>
      refine ⟨_, rfl, ?_⟩
      intro e he p
      rcases List.mem_cons.mp he with rfl | he2
      · exact fun h => GC.Effect.noConfusion h
      rcases List.mem_cons.mp he2 with rfl | he3
      · exact fun h => GC.Effect.noConfusion h
      · exact langsLoop_no_rm o (GC.rootFolder opts) o.langs e he3 p
  | none =>
      refine ⟨_, rfl, ?_⟩
      intro e he p
      rcases List.mem_cons.mp he with rfl | he2
      · exact fun h => GC.Effect.noConfusion h
      rcases List.mem_cons.mp he2 with rfl | he3
      · exact fun h => GC.Effect.noConfusion h
      rcases List.mem_append.mp he3 with h4 | h4
      · exact langsLoop_no_rm o (GC.rootFolder opts) o.langs e h4 p
      · have : e = GC.Effect.dumpE (str "index") (str "md")
            (joinLines (GC.langsLoop o (GC.rootFolder opts) o.langs).2.1) := by
          simpa using h4
        subst this
        exact fun h => GC.Effect.noConfusion h
